import Mathlib

/-!
Verification development for the `open_read` repository.

The repository is a Tauri desktop shell with three Rust source files:

* `src/src-tauri/src/db.rs` — an in-memory SQLite FTS5 dictionary: `init_db`
  creates the `dictionary(word, definition)` full-text table and inserts a
  hardcoded list of 19 entries; `search_dictionary` runs
  `SELECT definition FROM dictionary WHERE word MATCH ?`, stringifying every
  engine error via `map_err(|e| e.to_string())`.
* `src/src-tauri/src/lib.rs` — application startup: panics (via `expect`)
  when `init_db` fails, otherwise stores the connection behind a
  `std::sync::Mutex` in `DbState`.
* `src/src-tauri/src/utils.rs` — `get_file_hash`: returns
  `Err("File does not exist")` when the path does not exist, otherwise the
  lowercase hex encoding of the SHA-256 digest of the file bytes.

The shallow embedding below models the SQLite FTS5 behaviour that the Rust
code delegates to (unicode61 tokenization restricted to ASCII data, the
bareword/whitespace fragment of the FTS5 query language, rowid-ordered
results), the mutex, the file-system access of `get_file_hash`, and a full
executable SHA-256.
-/

/-! ## Characters: ASCII lowering and unicode61-style character classes

All dictionary data and all queries considered by the claims are ASCII, so
character-level definitions are ASCII-accurate and treat any non-ASCII
character as outside the modelled fragment.
-/

/-- ASCII lower-casing of a character, as done by the unicode61 tokenizer on
ASCII input (and by Rust's `to_lowercase` on ASCII). -/
def asciiLower (c : Char) : Char :=
  if 65 ≤ c.toNat ∧ c.toNat ≤ 90 then Char.ofNat (c.toNat + 32) else c

theorem toNat_ofNat_of_lt (n : Nat) (h : n < 55296) : (Char.ofNat n).toNat = n := by
  have hv : n.isValidChar := Or.inl h
  simp [Char.ofNat, hv, Char.ofNatAux, Char.toNat, UInt32.toNat, BitVec.toNat_ofNatLt]

theorem asciiLower_toNat_of_upper (c : Char) (h : 65 ≤ c.toNat ∧ c.toNat ≤ 90) :
    (asciiLower c).toNat = c.toNat + 32 := by
  unfold asciiLower
  rw [if_pos h, toNat_ofNat_of_lt]
  omega

theorem asciiLower_idem (c : Char) : asciiLower (asciiLower c) = asciiLower c := by
  by_cases h : 65 ≤ c.toNat ∧ c.toNat ≤ 90
  · have h2 := asciiLower_toNat_of_upper c h
    unfold asciiLower at h2 ⊢
    rw [if_pos h] at h2 ⊢
    rw [if_neg (by omega)]
  · unfold asciiLower
    rw [if_neg h, if_neg h]

/-- Token characters of the already-lowered alphabet: ASCII letters and
digits.  These are the ASCII characters the unicode61 tokenizer treats as
token constituents; the underscore is a separator for the tokenizer even
though it is a bareword constituent for the query parser. -/
def isTokLow (c : Char) : Bool :=
  (97 ≤ c.toNat && c.toNat ≤ 122) || (48 ≤ c.toNat && c.toNat ≤ 57)

/-- Bareword constituents of the already-lowered alphabet: the FTS5 query
parser accepts letters, digits and the underscore inside one bareword. -/
def isBwLow (c : Char) : Bool := isTokLow c || c = '_'

/-- Bareword-character test on raw characters; the character classes are
case-invariant, so the test factors through `asciiLower`. -/
def isBarewordChar (c : Char) : Bool := isBwLow (asciiLower c)

/-- ASCII whitespace as treated by the FTS5 query parser. -/
def isWsLow (c : Char) : Bool :=
  c = ' ' || c = '\t' || c = '\n' || c = '\r' || c = '\x0b' || c = '\x0c'

/-- Whitespace test on raw characters (whitespace is fixed by lowering). -/
def isWsChar (c : Char) : Bool := isWsLow (asciiLower c)

/-- Characters that begin FTS5 query constructs the model does not cover
(quoted phrases, grouping, prefix queries, column filters, NEAR argument
lists, initial-token matches), together with non-ASCII characters. -/
def isUnmodLow (c : Char) : Bool :=
  c = '"' || c = '(' || c = ')' || c = '*' || c = ':' || c = '^' ||
    c = '+' || c = ',' || 128 ≤ c.toNat

/-- Unmodelled-character test on raw characters. -/
def isUnmodChar (c : Char) : Bool := isUnmodLow (asciiLower c)

/-! ## Splitting a character list into maximal runs

`wordsBy p cs` is the list of maximal nonempty runs of characters of `cs`
satisfying `p`, in order.  It is the common engine behind the unicode61
tokenizer, the FTS5 bareword scanner, and (for the spec-modelled
`normalize`) whitespace splitting.  Defined structurally so that the kernel
can evaluate it. -/
def wordsByAux (p : Char → Bool) : List Char → List Char → List (List Char)
  | [], acc => if acc.isEmpty then [] else [acc.reverse]
  | c :: cs, acc =>
    if p c then wordsByAux p cs (c :: acc)
    else if acc.isEmpty then wordsByAux p cs []
    else acc.reverse :: wordsByAux p cs []

def wordsBy (p : Char → Bool) (cs : List Char) : List (List Char) :=
  wordsByAux p cs []

theorem wordsByAux_map (pL : Char → Bool) (f : Char → Char)
    (cs : List Char) : ∀ acc : List Char,
    (wordsByAux (fun c => pL (f c)) cs acc).map (List.map f)
      = wordsByAux pL (cs.map f) (acc.map f) := by
  induction cs with
  | nil =>
    intro acc
    simp only [wordsByAux, List.map_nil]
    cases acc <;> simp [wordsByAux]
  | cons c cs ih =>
    intro acc
    simp only [wordsByAux, List.map_cons]
    by_cases hp : pL (f c)
    · rw [if_pos hp, if_pos hp]
      exact ih (c :: acc)
    · rw [if_neg hp, if_neg hp]
      cases acc with
      | nil => simpa using ih []
      | cons a as =>
        simp only [List.isEmpty_cons, List.map_cons, if_neg Bool.false_ne_true,
          List.map_reverse]
        exact congrArg _ (by simpa using ih [])

theorem wordsBy_map (pL : Char → Bool) (f : Char → Char) (cs : List Char) :
    (wordsBy (fun c => pL (f c)) cs).map (List.map f) = wordsBy pL (cs.map f) := by
  simpa using wordsByAux_map pL f cs []

/-- Every produced run is nonempty. -/
theorem wordsByAux_ne_nil (p : Char → Bool) (cs : List Char) :
    ∀ acc : List Char, ∀ w ∈ wordsByAux p cs acc, w ≠ [] := by
  induction cs with
  | nil =>
    intro acc w hw
    by_cases h : acc.isEmpty
    · simp [wordsByAux, h] at hw
    · simp only [wordsByAux, if_neg h, List.mem_singleton] at hw
      subst hw
      cases acc with
      | nil => simp at h
      | cons a as => simp
  | cons c cs ih =>
    intro acc w hw
    simp only [wordsByAux] at hw
    by_cases hp : p c
    · rw [if_pos hp] at hw
      exact ih (c :: acc) w hw
    · rw [if_neg hp] at hw
      by_cases ha : acc.isEmpty
      · rw [if_pos ha] at hw
        exact ih [] w hw
      · rw [if_neg ha] at hw
        rcases List.mem_cons.mp hw with h | h
        · subst h
          cases acc with
          | nil => simp at ha
          | cons a as => simp
        · exact ih [] w h

/-- Every character of a produced run satisfies the predicate. -/
theorem wordsByAux_chars (p : Char → Bool) (cs : List Char) :
    ∀ acc : List Char, (∀ c ∈ acc, p c) →
      ∀ w ∈ wordsByAux p cs acc, ∀ c ∈ w, p c := by
  induction cs with
  | nil =>
    intro acc hacc w hw c hc
    by_cases h : acc.isEmpty
    · simp [wordsByAux, h] at hw
    · simp only [wordsByAux, if_neg h, List.mem_singleton] at hw
      subst hw
      exact hacc c (List.mem_reverse.mp hc)
  | cons b cs ih =>
    intro acc hacc w hw c hc
    simp only [wordsByAux] at hw
    by_cases hp : p b
    · rw [if_pos hp] at hw
      refine ih (b :: acc) ?_ w hw c hc
      intro d hd
      rcases List.mem_cons.mp hd with h | h
      · subst h; exact hp
      · exact hacc d h
    · rw [if_neg hp] at hw
      by_cases ha : acc.isEmpty
      · rw [if_pos ha] at hw
        exact ih [] (by simp) w hw c hc
      · rw [if_neg ha] at hw
        rcases List.mem_cons.mp hw with h | h
        · subst h
          exact hacc c (List.mem_reverse.mp hc)
        · exact ih [] (by simp) w h c hc

theorem wordsBy_ne_nil (p : Char → Bool) (cs : List Char) :
    ∀ w ∈ wordsBy p cs, w ≠ [] :=
  wordsByAux_ne_nil p cs []

theorem wordsBy_chars (p : Char → Bool) (cs : List Char) :
    ∀ w ∈ wordsBy p cs, ∀ c ∈ w, p c :=
  wordsByAux_chars p cs [] (by simp)

/-! ## FTS5 model: tokenizer, query parser, matching

`search_dictionary` in `db.rs` executes
`SELECT definition FROM dictionary WHERE word MATCH ?` against an FTS5
table.  SQLite semantics modelled here (checked against SQLite's FTS5 on
this exact schema and dataset):

* a MATCH constraint whose left-hand side is the column `word` restricts
  matching to that column;
* the stored `word` column is tokenized by unicode61: maximal runs of
  alphanumeric characters, case-folded; the underscore is a separator;
* the query string is parsed by the FTS5 query parser: whitespace-separated
  barewords (letters, digits, `_`) joined by an implicit AND; each bareword
  is itself run through unicode61 and matches as a phrase of adjacent
  tokens, so the query `virtual_machine` matches the row whose word
  tokenizes to `virtual`, `machine`;
* a `-` ends the current bareword and is lexed as the column-exclusion
  operator MINUS, whose following bareword is resolved as a column name:
  `Trace-based` fails with `no such column: based` and `Just-in-Time` with
  `no such column: in`;
* an empty (or all-whitespace) query is a syntax error,
  `fts5: syntax error near ""`;
* query features beyond this fragment (quoted phrases, the upper-case
  `AND`/`OR`/`NOT`/`NEAR` operators, grouping, prefix `*`, explicit column
  filters — including a `-` whose following bareword names an actual
  column — other punctuation, non-ASCII data) are represented by a
  distinct `unmodeled` result and are never produced by the inputs the
  claims are about;
* matching rows are returned in rowid order, which for this table is
  insertion order;
* `rusqlite` errors are stringified by the Rust code via
  `map_err(|e| e.to_string())`, which yields exactly the engine message.
-/

/-- Result of parsing an FTS5 query string (restricted to the fragment the
model covers): a parsed query is a list of phrases, each phrase a list of
adjacent case-folded tokens; `err` carries the full stringified engine
error. -/
inductive QueryParse
  | unmodeled
  | err (msg : String)
  | ok (toks : List (List (List Char)))
  deriving DecidableEq

/-- The bareword following the first `-` of the query, if any. -/
def afterHyphen : List Char → Option (List Char)
  | [] => none
  | c :: cs => if c = '-' then some (cs.takeWhile isBarewordChar) else afterHyphen cs

/-- Columns of the `dictionary` FTS5 table (column names are resolved
case-insensitively). -/
def columnNames : List (List Char) := ["word".data, "definition".data]

/-- Phrases of a query: the case-folded barewords, each split by the
unicode61 tokenizer into its adjacent tokens.  Case folding commutes with
run splitting because the character classes are case-invariant, so the
folding is applied first. -/
def queryPhrases (cs : List Char) : List (List (List Char)) :=
  (wordsBy isBwLow (cs.map asciiLower)).map (wordsBy isTokLow)

/-- FTS5 query parser for the bareword/whitespace/hyphen fragment. -/
def parseQueryFts (cs : List Char) : QueryParse :=
  if cs.any isUnmodChar then .unmodeled
  else if cs.any (fun c => !(isBarewordChar c || isWsChar c || c = '-')) then .unmodeled
  else if (wordsBy isBarewordChar cs).any
      (fun w => w = "AND".data || w = "OR".data || w = "NOT".data || w = "NEAR".data)
  then .unmodeled
  else
    match afterHyphen cs with
    | some bw =>
      if bw = [] ∨ bw.map asciiLower ∈ columnNames then .unmodeled
      else .err ("no such column: " ++ String.mk bw)
    | none =>
      if (queryPhrases cs).any (fun ph => ph.isEmpty) then .unmodeled
      else
        match queryPhrases cs with
        | [] => .err "fts5: syntax error near \"\""
        | p :: ps => .ok (p :: ps)

/-- Unicode61 tokenization (ASCII fragment) of a stored column value:
maximal alphanumeric runs, case-folded; `_` and every other
non-alphanumeric character separate tokens. -/
def tokenizeWord (s : String) : List (List Char) :=
  wordsBy isTokLow (s.data.map asciiLower)

/-- A dictionary row: the `word` and `definition` columns.  Rows live in a
list in insertion order; the position is the FTS5 rowid order. -/
abbrev Db : Type := List (String × String)

/-- Does the phrase `ph` occur as a contiguous run inside the token list
`l`?  This is FTS5's adjacent-tokens phrase matching. -/
def infixIn (ph : List (List Char)) : List (List Char) → Bool
  | [] => ph.isEmpty
  | t :: ts => ph.isPrefixOf (t :: ts) || infixIn ph ts

/-- Does a row match the parsed query?  Implicit AND over the query's
phrases; a phrase matches when its tokens occur adjacently, in order, in
the row's `word` tokens (the `word MATCH ?` constraint restricts matching
to that column). -/
def rowMatches (toks : List (List (List Char))) (row : String × String) : Bool :=
  toks.all (fun ph => infixIn ph (tokenizeWord row.1))

/-- Observable outcome of `search_dictionary`: the Rust function returns
`Result<Vec<String>, String>`; `unmodeled` marks query strings outside the
modelled FTS5 fragment. -/
inductive SearchOut
  | ok (defs : List String)
  | err (msg : String)
  | unmodeled
  deriving DecidableEq

/-- Hardcoded dataset inserted by `init_db` in `db.rs`, in source order. -/
def entriesList : List (String × String) :=
  [("Bank", "An institution for receiving, lending, exchanging, and safeguarding money."),
   ("Bank", "The land beside a body of water, such as a river."),
   ("Trace-based", "A method of optimization that uses execution traces to identify hot code paths."),
   ("Just-in-Time", "A method of executing computer code that involves compilation during execution rather than prior to execution."),
   ("Specialization", "The process of tailoring code for specific types or values to improve performance."),
   ("Dynamic", "Characterized by constant change, activity, or progress; in computing, referring to processes that occur during execution."),
   ("Compiler", "A program that translates source code into machine code or bytecode."),
   ("Interpreter", "A program that executes instructions directly without prior compilation."),
   ("Heuristic", "A technique designed for solving a problem more quickly when classic methods are too slow."),
   ("Deterministic", "A process that, given a particular input, will always produce the same output."),
   ("Optimization", "The action of making the best or most effective use of a resource."),
   ("Virtual Machine", "An emulation of a computer system providing the functionality of a physical computer."),
   ("Bytecode", "A form of instruction set designed for efficient execution by a software interpreter."),
   ("Type", "A category for a piece of data that determines what operations can be performed on it."),
   ("Pointer", "A variable that stores the memory address of another value."),
   ("Allocation", "The process of reserving a block of memory for data."),
   ("Garbage Collection", "Automatic memory management that reclaims space used by objects no longer in use."),
   ("Latency", "The time interval between a cause and its effect in a system."),
   ("Throughput", "The amount of data or processes handled within a specific period.")]

/-- The dictionary contents produced by a successful `init_db`: the
`CREATE VIRTUAL TABLE` starts from an empty table and the loop inserts
`entriesList` in order, so the rows in rowid order are exactly
`entriesList`. -/
def initRows : Db := entriesList

/-- `init_db` returns `Result<Connection>`; opening the in-memory store or
executing a statement can fail for environmental reasons, abstracted by the
`envFail` argument.  When every store operation succeeds the resulting
connection holds exactly `initRows`. -/
def init_db (envFail : Option String) : Except String Db :=
  match envFail with
  | some e => .error e
  | none => .ok initRows

/-- Model of `search_dictionary(word, state)` from `db.rs`.  The Rust code
locks the `DbState` mutex, prepares the SELECT statement (the statement is
fixed and valid, so preparation succeeds), runs the MATCH query and collects
the definitions; every fallible step is `map_err`-ed to a `String`.  The
database state is threaded through and returned so that effects on it are
part of the model: a SELECT statement reads and never writes, so every
branch returns the rows unchanged. -/
def search_dictionary (db : Db) (w : String) : SearchOut × Db :=
  match parseQueryFts w.data with
  | .unmodeled => (.unmodeled, db)
  | .err msg => (.err msg, db)
  | .ok toks => (.ok ((db.filter (rowMatches toks)).map Prod.snd), db)

example : parseQueryFts "bank".data = .ok [[['b', 'a', 'n', 'k']]] := by decide

example :
    (search_dictionary initRows "bank").1
      = .ok ["An institution for receiving, lending, exchanging, and safeguarding money.",
             "The land beside a body of water, such as a river."] := by decide

example : (search_dictionary initRows "Trace-based").1
    = .err "no such column: based" := by decide

example : (search_dictionary initRows "Just-in-Time").1
    = .err "no such column: in" := by decide

example : (search_dictionary initRows "").1
    = .err "fts5: syntax error near \"\"" := by decide

example : (search_dictionary initRows "zzzznotaterm").1 = .ok [] := by decide

example : (search_dictionary initRows "VIRTUAL machine").1
    = .ok ["An emulation of a computer system providing the functionality of a physical computer."] := by
  decide

example : (search_dictionary initRows "virtual_machine").1
    = .ok ["An emulation of a computer system providing the functionality of a physical computer."] := by
  decide

example : (search_dictionary initRows "garbage_collection").1
    = .ok ["Automatic memory management that reclaims space used by objects no longer in use."] := by
  decide

example : (search_dictionary initRows "machine_virtual").1 = .ok [] := by decide

/-! ## Case invariance of query parsing

All FTS5 character classes in the modelled fragment are case-invariant and
barewords are case-folded, so two query strings that agree after ASCII
lowering parse to the same phrase list — provided neither spells one of the
upper-case operator keywords, which is guaranteed whenever no folded phrase
is `and`, `or`, `not` or `near`. -/

/-- Case-folded forms of the FTS5 operator keywords, as one-bareword
phrases. -/
def foldedKeywordPhrase (ph : List (List Char)) : Bool :=
  ph = ["and".data] || ph = ["or".data] || ph = ["not".data] || ph = ["near".data]

theorem mem_map_lower {cs cs' : List Char}
    (h : cs'.map asciiLower = cs.map asciiLower)
    {c' : Char} (hc : c' ∈ cs') : ∃ c ∈ cs, asciiLower c = asciiLower c' := by
  have hm : asciiLower c' ∈ cs.map asciiLower := h ▸ List.mem_map_of_mem _ hc
  rcases List.mem_map.mp hm with ⟨c, hc2, he⟩
  exact ⟨c, hc2, he⟩

theorem any_lower_eq (p pL : Char → Bool)
    (hfact : ∀ c, p c = pL (asciiLower c))
    {cs cs' : List Char} (hfold : cs'.map asciiLower = cs.map asciiLower) :
    cs'.any p = cs.any p := by
  have h1 : ∀ l : List Char, l.any p = (l.map asciiLower).any pL := by
    intro l
    induction l with
    | nil => rfl
    | cons a l ih => simp [List.any_cons, ih, hfact]
  rw [h1, h1, hfold]

theorem asciiLower_eq_hyphen {c : Char} (h : asciiLower c = '-') : c = '-' := by
  by_cases hu : 65 ≤ c.toNat ∧ c.toNat ≤ 90
  · exfalso
    have h2 := asciiLower_toNat_of_upper c hu
    rw [h] at h2
    have h3 : ('-').toNat = 45 := rfl
    rw [h3] at h2
    omega
  · rw [← h]
    unfold asciiLower
    rw [if_neg hu]

theorem afterHyphen_eq_none {l : List Char} : afterHyphen l = none ↔ '-' ∉ l := by
  induction l with
  | nil => simp [afterHyphen]
  | cons c cs ih =>
    by_cases hc : c = '-'
    · subst hc
      simp [afterHyphen]
    · simp only [afterHyphen, if_neg hc, ih, List.mem_cons]
      constructor
      · intro h hmem
        rcases hmem with h2 | h2
        · exact hc h2.symm
        · exact h h2
      · intro h hmem
        exact h (Or.inr hmem)

theorem wordsBy_isBarewordChar_map (cs : List Char) :
    (wordsBy isBarewordChar cs).map (List.map asciiLower)
      = wordsBy isBwLow (cs.map asciiLower) :=
  wordsBy_map isBwLow asciiLower cs

theorem parseQueryFts_caseFold {cs cs' : List Char}
    (hfold : cs'.map asciiLower = cs.map asciiLower)
    {toks : List (List (List Char))}
    (hok : parseQueryFts cs = .ok toks)
    (hkw : ∀ ph ∈ toks, foldedKeywordPhrase ph = false) :
    parseQueryFts cs' = .ok toks := by
  unfold parseQueryFts at hok ⊢
  by_cases h1 : cs.any isUnmodChar = true
  · rw [if_pos h1] at hok
    exact absurd hok (by simp)
  rw [if_neg h1] at hok
  by_cases h2 : cs.any (fun c => !(isBarewordChar c || isWsChar c || c = '-')) = true
  · rw [if_pos h2] at hok
    exact absurd hok (by simp)
  rw [if_neg h2] at hok
  by_cases h3 : (wordsBy isBarewordChar cs).any
      (fun w => w = "AND".data || w = "OR".data || w = "NOT".data || w = "NEAR".data) = true
  · rw [if_pos h3] at hok
    exact absurd hok (by simp)
  rw [if_neg h3] at hok
  rcases hhy : afterHyphen cs with _ | bw
  rotate_left
  · simp only [hhy] at hok
    split at hok
    · exact absurd hok (by simp)
    · exact absurd hok (by simp)
  simp only [hhy] at hok
  by_cases h4 : (queryPhrases cs).any (fun ph => ph.isEmpty) = true
  · rw [if_pos h4] at hok
    exact absurd hok (by simp)
  rw [if_neg h4] at hok
  rcases hph : queryPhrases cs with _ | ⟨p, ps⟩
  · simp only [hph] at hok
    exact absurd hok (by simp)
  simp only [hph] at hok
  have htoks : p :: ps = toks := by
    simpa using hok
  have h1' : ¬cs'.any isUnmodChar = true := by
    rw [any_lower_eq isUnmodChar isUnmodLow (fun c => rfl) hfold]
    exact h1
  have hbadfact : ∀ c : Char, (!(isBarewordChar c || isWsChar c || c = '-'))
      = ((fun d => !(isBwLow d || isWsLow d || d = '-')) (asciiLower c)) := by
    intro c
    have hdec : (decide (c = '-')) = (decide (asciiLower c = '-')) := by
      by_cases hc : c = '-'
      · subst hc
        decide
      · have hnc : ¬asciiLower c = '-' := fun hx => hc (asciiLower_eq_hyphen hx)
        simp [hc, hnc]
    show (!(isBwLow (asciiLower c) || isWsLow (asciiLower c) || decide (c = '-'))) = _
    rw [hdec]
  have h2' : ¬cs'.any (fun c => !(isBarewordChar c || isWsChar c || c = '-')) = true := by
    rw [any_lower_eq (fun c => !(isBarewordChar c || isWsChar c || c = '-'))
      (fun d => !(isBwLow d || isWsLow d || d = '-')) hbadfact hfold]
    exact h2
  have h3' : ¬(wordsBy isBarewordChar cs').any
      (fun w => w = "AND".data || w = "OR".data || w = "NOT".data || w = "NEAR".data) = true := by
    intro hany
    rcases List.any_eq_true.mp hany with ⟨w, hwmem, hwkw⟩
    have hfw : w.map asciiLower ∈ (wordsBy isBarewordChar cs').map (List.map asciiLower) :=
      List.mem_map_of_mem _ hwmem
    rw [wordsBy_isBarewordChar_map, hfold] at hfw
    have hph2 : wordsBy isTokLow (w.map asciiLower) ∈ queryPhrases cs := by
      unfold queryPhrases
      exact List.mem_map_of_mem _ hfw
    rw [hph, htoks] at hph2
    have hkwp : foldedKeywordPhrase (wordsBy isTokLow (w.map asciiLower)) = true := by
      simp only [Bool.or_eq_true, decide_eq_true_eq] at hwkw
      rcases hwkw with ((h | h) | h) | h <;> rw [h] <;> decide
    rw [hkw _ hph2] at hkwp
    exact Bool.false_ne_true hkwp
  have hnh : '-' ∉ cs := afterHyphen_eq_none.mp hhy
  have hnh' : '-' ∉ cs' := by
    intro hmem
    have hm2 : asciiLower '-' ∈ cs'.map asciiLower := List.mem_map_of_mem _ hmem
    rw [hfold] at hm2
    rcases List.mem_map.mp hm2 with ⟨c, hc, he⟩
    have hlow : asciiLower '-' = '-' := rfl
    rw [hlow] at he
    exact hnh ((asciiLower_eq_hyphen he) ▸ hc)
  have hphr : queryPhrases cs' = queryPhrases cs := by
    unfold queryPhrases
    rw [hfold]
  rw [if_neg h1', if_neg h2', if_neg h3']
  simp only [afterHyphen_eq_none.mpr hnh']
  rw [hphr, if_neg h4]
  simp only [hph]
  exact congrArg _ htoks

/-! ## Claim C1: build/search round trip -/

/-- Decidable per-entry check used by claim C1: the entry's word parses to a
keyword-free phrase list whose search over the built dictionary includes the
entry's definition. -/
def entrySearchOk (w d : String) : Bool :=
  match parseQueryFts w.data with
  | .ok toks =>
      toks.all (fun ph => !foldedKeywordPhrase ph) &&
        decide (d ∈ (initRows.filter (rowMatches toks)).map Prod.snd)
  | _ => false

theorem entrySearchOk_spec {w d : String} (h : entrySearchOk w d = true)
    (w' : String) (hcase : w'.data.map asciiLower = w.data.map asciiLower) :
    ∃ defs, (search_dictionary initRows w').1 = SearchOut.ok defs ∧ d ∈ defs := by
  unfold entrySearchOk at h
  rcases hp : parseQueryFts w.data with _ | _ | toks <;> rw [hp] at h
  · exact absurd h (by simp)
  · exact absurd h (by simp)
  · simp only [Bool.and_eq_true] at h
    rcases h with ⟨hnkw, hmem⟩
    have hkw : ∀ ph ∈ toks, foldedKeywordPhrase ph = false := by
      intro ph hpm
      have := List.all_eq_true.mp hnkw ph hpm
      simpa using this
    have hp' := parseQueryFts_caseFold hcase hp hkw
    refine ⟨(initRows.filter (rowMatches toks)).map Prod.snd, ?_, ?_⟩
    · unfold search_dictionary
      rw [hp']
    · exact of_decide_eq_true hmem

theorem entries_good :
    ∀ p ∈ entriesList, '-' ∈ p.1.data ∨ entrySearchOk p.1 p.2 = true := by
  decide

/-- C1 (counterexample): the hardcoded entry ("Trace-based", ...) is
inserted by `init_db`, yet `search_dictionary` called with the word
"Trace-based" does not return a result list containing its definition: the
hyphen is lexed as FTS5's column-exclusion operator MINUS, the bareword
after it is resolved as a column name, and the call fails with
`Err("no such column: based")`. -/
theorem C1_counterexample :
    ¬∃ defs, (search_dictionary initRows "Trace-based").1 = SearchOut.ok defs ∧
      "A method of optimization that uses execution traces to identify hot code paths." ∈ defs := by
  intro hex
  rcases hex with ⟨defs, heq, _⟩
  have herr : (search_dictionary initRows "Trace-based").1
      = SearchOut.err "no such column: based" := by decide
  rw [herr] at heq
  exact SearchOut.noConfusion heq

/-- C1 (amended): for every hardcoded (word, definition) pair inserted by
`init_db` whose word contains no hyphen — all except "Trace-based" and
"Just-in-Time" — `search_dictionary` called with that word, in any letter
case, returns an `Ok` list containing that definition.  (For the two
hyphenated words the call instead fails, with `Err("no such column:
based")` and `Err("no such column: in")` respectively: the hyphen starts
FTS5's column-exclusion syntax and the word after it is not a column, as
the counterexample shows.) -/
theorem C1_search_includes_definition
    (w d : String) (hmem : (w, d) ∈ entriesList) (hnh : '-' ∉ w.data)
    (w' : String) (hcase : w'.data.map asciiLower = w.data.map asciiLower) :
    ∃ defs, (search_dictionary initRows w').1 = SearchOut.ok defs ∧ d ∈ defs := by
  rcases entries_good (w, d) hmem with h | h
  · exact absurd h hnh
  · exact entrySearchOk_spec h w' hcase

theorem C1_witness :
    ∃ defs, (search_dictionary initRows "COMPILER").1 = SearchOut.ok defs ∧
      "A program that translates source code into machine code or bytecode." ∈ defs :=
  C1_search_includes_definition "Compiler"
    "A program that translates source code into machine code or bytecode."
    (by decide) (by decide) "COMPILER" (by decide)

/-- C2: `init_db` inserts ("Bank", money-institution definition) and then
("Bank", riverbank definition); `search_dictionary` on "bank" matches both
case-insensitively and returns exactly the two definitions in insertion
(rowid) order. -/
theorem C2_homonym_order :
    (search_dictionary initRows "bank").1
      = SearchOut.ok
          ["An institution for receiving, lending, exchanging, and safeguarding money.",
           "The land beside a body of water, such as a river."] := by
  decide

/-- C4 (counterexample): `search_dictionary("")` does fail, but the failure
is the stringified FTS5 engine error — precisely the blanket
`map_err(|e| e.to_string())` outcome that the claim says must not happen —
and there is no structured `QueryRejected` kind anywhere in the function,
whose error type is `String`. -/
theorem C4_counterexample :
    (search_dictionary initRows "").1
      = SearchOut.err "fts5: syntax error near \"\"" := by
  decide

/-- C4 (amended): `search_dictionary("")` fails (it does not succeed with
an empty list), so the empty query is distinguishable from the no-result
success; but the failure carries only an opaque stringified engine error,
not a `QueryRejected` kind. -/
theorem C4_empty_query_fails :
    (search_dictionary initRows "").1 ≠ SearchOut.ok [] ∧
      ∃ s, (search_dictionary initRows "").1 = SearchOut.err s := by
  refine ⟨by decide, "fts5: syntax error near \"\"", by decide⟩

/-- C9: `search_dictionary` never mutates the dictionary: on every store
state and query — whether the outcome is `Ok`, an error, or outside the
modelled query fragment — the rows after the call (threaded through and
returned by the model) are exactly the rows before it. -/
theorem C9_search_preserves_db (db : Db) (w : String) :
    (search_dictionary db w).2 = db := by
  unfold search_dictionary
  rcases parseQueryFts w.data with _ | _ | _ <;> rfl

/-! ## Claim C5: the spec's normalization function -/

/-- Joining words with single spaces. -/
def joinWords : List (List Char) → List Char
  | [] => []
  | [w] => w
  | w :: w2 :: ws => w ++ ' ' :: joinWords (w2 :: ws)

/-- Modelled from the spec: the repository has no normalization function in
its source (the Rust code delegates case-insensitive matching to the FTS5
tokenizer), so `Spec.normalize` is taken from the spec's words —
"lowercase, trim leading/trailing whitespace, collapse internal whitespace
to single spaces" — realized as: lowercase every character, split into
maximal non-whitespace runs, and rejoin them with single spaces (which
trims the ends and collapses every internal whitespace run).  This single
definition is the one function applied at both build time and query time in
the spec's design. -/
def Spec.normalize (s : String) : String :=
  String.mk (joinWords (wordsBy (fun c => !isWsChar c) (s.data.map asciiLower)))

theorem map_eq_self_of_fixed {f : Char → Char} {l : List Char}
    (h : ∀ c ∈ l, f c = c) : l.map f = l := by
  induction l with
  | nil => rfl
  | cons a l ih =>
    rw [List.map_cons, h a (by simp), ih]
    intro c hc
    exact h c (by simp [hc])

/-- Characters of a produced run come from the scanned list. -/
theorem wordsByAux_subset (p : Char → Bool) (cs : List Char) :
    ∀ acc : List Char, ∀ w ∈ wordsByAux p cs acc, ∀ c ∈ w, c ∈ cs ∨ c ∈ acc := by
  induction cs with
  | nil =>
    intro acc w hw c hc
    by_cases h : acc.isEmpty
    · simp [wordsByAux, h] at hw
    · simp only [wordsByAux, if_neg h, List.mem_singleton] at hw
      subst hw
      exact Or.inr (List.mem_reverse.mp hc)
  | cons b cs ih =>
    intro acc w hw c hc
    simp only [wordsByAux] at hw
    by_cases hp : p b
    · rw [if_pos hp] at hw
      rcases ih (b :: acc) w hw c hc with h | h
      · exact Or.inl (by simp [h])
      · rcases List.mem_cons.mp h with h2 | h2
        · exact Or.inl (by simp [h2])
        · exact Or.inr h2
    · rw [if_neg hp] at hw
      by_cases ha : acc.isEmpty
      · rw [if_pos ha] at hw
        rcases ih [] w hw c hc with h | h
        · exact Or.inl (by simp [h])
        · simp at h
      · rw [if_neg ha] at hw
        rcases List.mem_cons.mp hw with h | h
        · subst h
          exact Or.inr (List.mem_reverse.mp hc)
        · rcases ih [] w h c hc with h2 | h2
          · exact Or.inl (by simp [h2])
          · simp at h2

theorem wordsBy_subset (p : Char → Bool) (cs : List Char) :
    ∀ w ∈ wordsBy p cs, ∀ c ∈ w, c ∈ cs := by
  intro w hw c hc
  rcases wordsByAux_subset p cs [] w hw c hc with h | h
  · exact h
  · simp at h

/-- Characters of a joined word list are word characters or the space. -/
theorem mem_joinWords {ws : List (List Char)} {c : Char}
    (hc : c ∈ joinWords ws) : (∃ w ∈ ws, c ∈ w) ∨ c = ' ' := by
  induction ws with
  | nil => simp [joinWords] at hc
  | cons w ws ih =>
    cases ws with
    | nil =>
      simp only [joinWords] at hc
      exact Or.inl ⟨w, by simp, hc⟩
    | cons w2 ws2 =>
      simp only [joinWords, List.mem_append, List.mem_cons] at hc
      rcases hc with h | h | h
      · exact Or.inl ⟨w, by simp, h⟩
      · exact Or.inr h
      · rcases ih h with ⟨w3, hw3, hcw3⟩ | h2
        · exact Or.inl ⟨w3, by simp [hw3], hcw3⟩
        · exact Or.inr h2

/-- Scanning a run of characters that all satisfy the predicate pushes the
run onto the accumulator. -/
theorem wordsByAux_append (p : Char → Bool) (w : List Char) (hw : ∀ c ∈ w, p c) :
    ∀ rest acc, wordsByAux p (w ++ rest) acc = wordsByAux p rest (w.reverse ++ acc) := by
  induction w with
  | nil => intro rest acc; simp
  | cons c w ih =>
    intro rest acc
    have h1 : (c :: w) ++ rest = c :: (w ++ rest) := rfl
    rw [h1]
    show (if p c = true then wordsByAux p (w ++ rest) (c :: acc)
      else if (acc : List Char).isEmpty then wordsByAux p (w ++ rest) []
      else acc.reverse :: wordsByAux p (w ++ rest) []) = _
    rw [if_pos (hw c (by simp))]
    rw [ih (fun d hd => hw d (by simp [hd])) rest (c :: acc)]
    simp

/-- Splitting undoes joining: scanning the space-joined image of a list of
nonempty runs of predicate-characters recovers exactly those runs. -/
theorem wordsBy_joinWords (p : Char → Bool) (hsp : p ' ' = false) :
    ∀ ws : List (List Char), (∀ w ∈ ws, w ≠ []) → (∀ w ∈ ws, ∀ c ∈ w, p c) →
      wordsBy p (joinWords ws) = ws := by
  intro ws
  induction ws with
  | nil => intro _ _; rfl
  | cons w ws ih =>
    intro hne hch
    have hne2 : ¬(w.reverse).isEmpty = true := by
      cases hmm : w.reverse with
      | nil => exact absurd (by simpa using hmm) (hne w (by simp))
      | cons a l => simp
    cases ws with
    | nil =>
      show wordsByAux p (joinWords [w]) [] = [w]
      have hw0 : joinWords [w] = w := rfl
      have h1 := wordsByAux_append p w (hch w (by simp)) [] []
      simp only [List.append_nil] at h1
      rw [hw0, h1]
      simp only [wordsByAux, if_neg hne2, List.reverse_reverse]
    | cons w2 ws2 =>
      show wordsByAux p (joinWords (w :: w2 :: ws2)) [] = w :: w2 :: ws2
      have hj : joinWords (w :: w2 :: ws2) = w ++ ' ' :: joinWords (w2 :: ws2) := rfl
      have h1 := wordsByAux_append p w (hch w (by simp)) (' ' :: joinWords (w2 :: ws2)) []
      simp only [List.append_nil] at h1
      rw [hj, h1]
      show (if p ' ' = true then wordsByAux p (joinWords (w2 :: ws2)) (' ' :: w.reverse)
        else if (w.reverse).isEmpty then wordsByAux p (joinWords (w2 :: ws2)) []
        else w.reverse.reverse :: wordsByAux p (joinWords (w2 :: ws2)) []) = _
      rw [if_neg (by simp [hsp]), if_neg hne2, List.reverse_reverse]
      have hrest := ih (fun v hv => hne v (by simp [hv])) (fun v hv => hch v (by simp [hv]))
      exact congrArg _ hrest

/-- C5: the spec-modelled normalization (lowercase, trim leading and
trailing whitespace, collapse internal whitespace runs to single spaces) is
idempotent; being a single pure function, the identical map is applied at
build time and at query time. -/
theorem C5_normalize_idempotent (s : String) :
    Spec.normalize (Spec.normalize s) = Spec.normalize s := by
  unfold Spec.normalize
  set P : Char → Bool := fun c => !isWsChar c with hP
  set l : List Char := joinWords (wordsBy P (s.data.map asciiLower)) with hl
  have hfix : l.map asciiLower = l := by
    apply map_eq_self_of_fixed
    intro c hc
    rcases mem_joinWords hc with ⟨w, hw, hcw⟩ | hsp
    · have hcs : c ∈ s.data.map asciiLower := wordsBy_subset P _ w hw c hcw
      rcases List.mem_map.mp hcs with ⟨x, _, hx⟩
      rw [← hx, asciiLower_idem]
    · rw [hsp]
      decide
  have hsplit : wordsBy P l = wordsBy P (s.data.map asciiLower) := by
    rw [hl]
    exact wordsBy_joinWords P (by decide)
      (wordsBy P (s.data.map asciiLower))
      (wordsBy_ne_nil P (s.data.map asciiLower))
      (wordsBy_chars P (s.data.map asciiLower))
  simp only [String.data]
  rw [hfix, hsplit]

/-! ## Claim C6: startup behaviour

The `setup` closure in `lib.rs` runs
`init_db(...).expect("Failed to initialize dictionary database")` and then
manages the resulting connection; `expect` panics with that message when
`init_db` returns an error and setup continues normally otherwise. -/

/-- Outcome of the startup `setup` closure. -/
inductive StartupOutcome
  | panicked (msg : String)
  | running (db : Db)
  deriving DecidableEq

/-- Model of the `setup` closure of `run` in `lib.rs`: panic on an `init_db`
error (the `expect`), otherwise hold the dictionary and continue. -/
def runSetup (initResult : Except String Db) : StartupOutcome :=
  match initResult with
  | .error _ => .panicked "Failed to initialize dictionary database"
  | .ok db => .running db

/-- C6: startup aborts (panics) exactly when the backing store cannot be
initialized: an `init_db` error makes the `expect` panic instead of
continuing without a dictionary, and when `init_db` succeeds no condition
in the setup path aborts startup. -/
theorem C6_startup_panics_iff_init_fails (envFail : Option String) :
    (∃ msg, runSetup (init_db envFail) = StartupOutcome.panicked msg)
      ↔ envFail.isSome = true := by
  cases envFail with
  | none => simp [init_db, runSetup]
  | some e => simp [init_db, runSetup]

/-! ## Claim C8: concurrency through the single mutex

All access to the connection goes through the one `std::sync::Mutex` in
`DbState`; `search_dictionary` begins with `state.0.lock().unwrap()`.  The
mutex is modelled as a small labelled transition system with two in-flight
search threads: each thread is waiting to lock, inside the critical
section (owning the lock), or done; `lock()` is enabled only when no one
holds the mutex. -/

/-- Phase of one search thread. -/
inductive Phase
  | waiting
  | critical
  | done
  deriving DecidableEq, Fintype

/-- Global state: whether the mutex is held, and the two thread phases. -/
structure MState where
  lockHeld : Bool
  t0 : Phase
  t1 : Phase
  deriving DecidableEq, Fintype

/-- Actions: each thread may acquire the mutex (entering its search's
critical section) or release it (finishing the search). -/
inductive MAct
  | acquire0
  | acquire1
  | release0
  | release1
  deriving DecidableEq, Fintype

/-- Guard of each action: `Mutex::lock` blocks while the mutex is held, so
an acquire is enabled only when `lockHeld` is false. -/
def actEnabled (s : MState) (a : MAct) : Bool :=
  match a with
  | .acquire0 => s.t0 = Phase.waiting && !s.lockHeld
  | .acquire1 => s.t1 = Phase.waiting && !s.lockHeld
  | .release0 => s.t0 = Phase.critical
  | .release1 => s.t1 = Phase.critical

/-- Effect of each action. -/
def actApply (s : MState) (a : MAct) : MState :=
  match a with
  | .acquire0 => ⟨true, .critical, s.t1⟩
  | .acquire1 => ⟨true, s.t0, .critical⟩
  | .release0 => ⟨false, .done, s.t1⟩
  | .release1 => ⟨false, s.t0, .done⟩

/-- States reachable from two concurrent `search_dictionary` calls about to
lock the mutex. -/
inductive MReachable : MState → Prop
  | start : MReachable ⟨false, .waiting, .waiting⟩
  | step (s : MState) (a : MAct) (h : MReachable s) (he : actEnabled s a = true) :
      MReachable (actApply s a)

/-- Inductive invariant: a thread in its critical section implies the mutex
is held, and the two threads are never both in their critical sections. -/
def mutexInv (s : MState) : Bool :=
  (!(s.t0 = Phase.critical) || s.lockHeld) &&
    ((!(s.t1 = Phase.critical) || s.lockHeld) &&
      !((s.t0 = Phase.critical) && (s.t1 = Phase.critical)))

theorem mutexInv_preserved :
    ∀ s a, mutexInv s = true → actEnabled s a = true → mutexInv (actApply s a) = true := by
  decide

theorem mutexInv_reachable (s : MState) (h : MReachable s) : mutexInv s = true := by
  induction h with
  | start => decide
  | step s a _ he ih => exact mutexInv_preserved s a ih he

/-- C8 (counterexample): with the single `Mutex`, two in-flight searches do
serialize against each other: in the reachable state where thread 0 holds
the mutex inside its search, thread 1's `lock()` is not enabled — it
blocks until thread 0 releases. -/
theorem C8_counterexample :
    MReachable ⟨true, Phase.critical, Phase.waiting⟩ ∧
      actEnabled ⟨true, Phase.critical, Phase.waiting⟩ MAct.acquire1 = false :=
  ⟨MReachable.step ⟨false, .waiting, .waiting⟩ MAct.acquire0 MReachable.start (by decide),
   by decide⟩

/-- C8 (amended): every access — read or write — serializes through the
single mutex in `DbState`.  Exclusivity holds: in no reachable state are
two threads inside the mutex-guarded section simultaneously (so a writer
could never be active with a reader either); but reads are not concurrent —
a second search blocks while one search holds the mutex, as the
counterexample shows. -/
theorem C8_mutual_exclusion (s : MState) (h : MReachable s) :
    ¬(s.t0 = Phase.critical ∧ s.t1 = Phase.critical) := by
  intro hboth
  have hinv := mutexInv_reachable s h
  rw [mutexInv] at hinv
  rw [hboth.1, hboth.2] at hinv
  simp at hinv

theorem C8_witness :
    ¬((⟨true, Phase.critical, Phase.waiting⟩ : MState).t0 = Phase.critical ∧
      (⟨true, Phase.critical, Phase.waiting⟩ : MState).t1 = Phase.critical) :=
  C8_mutual_exclusion ⟨true, Phase.critical, Phase.waiting⟩
    (MReachable.step ⟨false, .waiting, .waiting⟩ MAct.acquire0 MReachable.start (by decide))

/-! ## SHA-256 (FIPS 180-4) over byte lists

`get_file_hash` in `utils.rs` feeds the file bytes to the `sha2` crate's
`Sha256` and hex-encodes the digest with `hex::encode`.  The whole
algorithm is reproduced here executably; bytes are `Nat`s below 256 and
32-bit words are `Nat`s reduced modulo `2^32`. -/

/-- Truncation to a 32-bit word. -/
def w32 (n : Nat) : Nat := n % 4294967296

/-- Right rotation of a 32-bit word. -/
def rotr32 (n x : Nat) : Nat := w32 (x / 2 ^ n + x % 2 ^ n * 2 ^ (32 - n))

/-- Logical right shift. -/
def shr32 (n x : Nat) : Nat := x / 2 ^ n

def xor3 (a b c : Nat) : Nat := Nat.xor (Nat.xor a b) c

def bigSigma0 (x : Nat) : Nat := xor3 (rotr32 2 x) (rotr32 13 x) (rotr32 22 x)

def bigSigma1 (x : Nat) : Nat := xor3 (rotr32 6 x) (rotr32 11 x) (rotr32 25 x)

def smallSigma0 (x : Nat) : Nat := xor3 (rotr32 7 x) (rotr32 18 x) (shr32 3 x)

def smallSigma1 (x : Nat) : Nat := xor3 (rotr32 17 x) (rotr32 19 x) (shr32 10 x)

/-- Choice function: bits of `y` where `x` is set, of `z` elsewhere. -/
def chFn (x y z : Nat) : Nat :=
  Nat.xor (Nat.land x y) (Nat.land (Nat.xor x 4294967295) z)

/-- Majority function. -/
def majFn (x y z : Nat) : Nat :=
  Nat.xor (Nat.xor (Nat.land x y) (Nat.land x z)) (Nat.land y z)

/-- Round constants: fractional parts of the cube roots of the first 64
primes. -/
def kConst : List Nat :=
  [1116352408, 1899447441, 3049323471, 3921009573, 961987163, 1508970993,
   2453635748, 2870763221, 3624381080, 310598401, 607225278, 1426881987,
   1925078388, 2162078206, 2614888103, 3248222580, 3835390401, 4022224774,
   264347078, 604807628, 770255983, 1249150122, 1555081692, 1996064986,
   2554220882, 2821834349, 2952996808, 3210313671, 3336571891, 3584528711,
   113926993, 338241895, 666307205, 773529912, 1294757372, 1396182291,
   1695183700, 1986661051, 2177026350, 2456956037, 2730485921, 2820302411,
   3259730800, 3345764771, 3516065817, 3600352804, 4094571909, 275423344,
   430227734, 506948616, 659060556, 883997877, 958139571, 1322822218,
   1537002063, 1747873779, 1955562222, 2024104815, 2227730452, 2361852424,
   2428436474, 2756734187, 3204031479, 3329325298]

/-- Working variables of the compression function. -/
structure Hash8 where
  a : Nat
  b : Nat
  c : Nat
  d : Nat
  e : Nat
  f : Nat
  g : Nat
  h : Nat
  deriving DecidableEq

/-- Initial hash value: fractional parts of the square roots of the first
8 primes. -/
def initH : Hash8 :=
  ⟨1779033703, 3144134277, 1013904242, 2773480762,
   1359893119, 2600822924, 528734635, 1541459225⟩

/-- One compression round, consuming a (round constant, schedule word)
pair. -/
def roundStep (st : Hash8) (kw : Nat × Nat) : Hash8 :=
  let t1 := w32 (st.h + bigSigma1 st.e + chFn st.e st.f st.g + kw.1 + kw.2)
  let t2 := w32 (bigSigma0 st.a + majFn st.a st.b st.c)
  ⟨w32 (t1 + t2), st.a, st.b, st.c, w32 (st.d + t1), st.e, st.f, st.g⟩

/-- Message-schedule extension: the accumulator holds all words so far in
reverse; each step prepends one new word until 48 have been added. -/
def scheduleAux : Nat → List Nat → List Nat
  | 0, acc => acc.reverse
  | n + 1, acc =>
    scheduleAux n
      (w32 (smallSigma1 (acc.getD 1 0) + acc.getD 6 0 +
        smallSigma0 (acc.getD 14 0) + acc.getD 15 0) :: acc)

/-- Expand a 16-word block to the 64 schedule words. -/
def schedule (block : List Nat) : List Nat := scheduleAux 48 block.reverse

/-- Compress one 16-word block into the running hash. -/
def compressBlock (H : Hash8) (block : List Nat) : Hash8 :=
  let t := (kConst.zip (schedule block)).foldl roundStep H
  ⟨w32 (H.a + t.a), w32 (H.b + t.b), w32 (H.c + t.c), w32 (H.d + t.d),
   w32 (H.e + t.e), w32 (H.f + t.f), w32 (H.g + t.g), w32 (H.h + t.h)⟩

/-- Big-endian 8-byte encoding of the message bit length. -/
def be8 (n : Nat) : List Nat :=
  [n / 2 ^ 56 % 256, n / 2 ^ 48 % 256, n / 2 ^ 40 % 256, n / 2 ^ 32 % 256,
   n / 2 ^ 24 % 256, n / 2 ^ 16 % 256, n / 2 ^ 8 % 256, n % 256]

/-- SHA-256 padding: a `0x80` byte, zeros to 56 mod 64, then the bit
length. -/
def padMsg (msg : List Nat) : List Nat :=
  msg ++ 128 :: List.replicate ((119 - msg.length % 64) % 64) 0 ++ be8 (8 * msg.length)

/-- Group bytes into big-endian 32-bit words. -/
def bytesToWords : List Nat → List Nat
  | b0 :: b1 :: b2 :: b3 :: rest =>
    (b0 * 16777216 + b1 * 65536 + b2 * 256 + b3) :: bytesToWords rest
  | _ => []

/-- Group words into 16-word blocks. -/
def wordsToBlocks : List Nat → List (List Nat)
  | w0 :: w1 :: w2 :: w3 :: w4 :: w5 :: w6 :: w7 ::
      w8 :: w9 :: w10 :: w11 :: w12 :: w13 :: w14 :: w15 :: rest =>
    [w0, w1, w2, w3, w4, w5, w6, w7, w8, w9, w10, w11, w12, w13, w14, w15]
      :: wordsToBlocks rest
  | _ => []

/-- Big-endian bytes of one 32-bit word. -/
def wordBytes (w : Nat) : List Nat :=
  [w / 16777216 % 256, w / 65536 % 256, w / 256 % 256, w % 256]

/-- SHA-256 digest of a byte list, as 32 bytes. -/
def sha256Bytes (msg : List Nat) : List Nat :=
  let t := (wordsToBlocks (bytesToWords (padMsg msg))).foldl compressBlock initH
  wordBytes t.a ++ wordBytes t.b ++ wordBytes t.c ++ wordBytes t.d ++
    wordBytes t.e ++ wordBytes t.f ++ wordBytes t.g ++ wordBytes t.h

/-- Lowercase hex digit, as produced by the `hex` crate. -/
def hexDigit (n : Nat) : Char :=
  match n with
  | 0 => '0' | 1 => '1' | 2 => '2' | 3 => '3' | 4 => '4' | 5 => '5' | 6 => '6' | 7 => '7'
  | 8 => '8' | 9 => '9' | 10 => 'a' | 11 => 'b' | 12 => 'c' | 13 => 'd' | 14 => 'e' | 15 => 'f'
  | _ => 'x'

/-- Lowercase hex encoding of a byte list, two digits per byte. -/
def hexBytes : List Nat → List Char
  | [] => []
  | b :: bs => hexDigit (b / 16 % 16) :: hexDigit (b % 16) :: hexBytes bs

/-- Hex-encoded SHA-256 digest of a byte list, as a string. -/
def sha256Hex (msg : List Nat) : String := String.mk (hexBytes (sha256Bytes msg))

/-- Validation of the embedding against the standard SHA-256 test vector
for the empty message. -/
theorem sha256Hex_empty_vec :
    sha256Hex [] = "e3b0c44298fc1c149afbf4c8996fb92427ae41e4649b934ca495991b7852b855" := by
  rfl

/-- Validation of the embedding against the standard SHA-256 test vector
for the three-byte message "abc". -/
theorem sha256Hex_abc_vec :
    sha256Hex [97, 98, 99]
      = "ba7816bf8f01cfea414140de5dae2223b00361a396177a9cb410ff61f20015ad" := by
  rfl

/-! ## Claims C7 and C10: `get_file_hash` -/

/-- File-system oracle for `get_file_hash`: for a path, `none` means
`path.exists()` is false; `some (.error e)` means the path exists but
`fs::read` fails with stringified error `e`; `some (.ok bytes)` means the
file is readable with exactly `bytes` as content. -/
abbrev FileSys : Type := String → Option (Except String (List Nat))

/-- Model of `get_file_hash(path)` from `utils.rs`: early `Err` when the
path does not exist, propagate a stringified read error, otherwise the
lowercase hex SHA-256 of the content. -/
def get_file_hash (fs : FileSys) (path : String) : Except String String :=
  match fs path with
  | none => .error "File does not exist"
  | some (.error e) => .error e
  | some (.ok content) => .ok (sha256Hex content)

/-- C7: for every path naming an existing readable file, `get_file_hash`
returns `Ok` of the hex encoding of the SHA-256 digest of exactly the
file's bytes, and the result is a pure function of those bytes: any other
path on any other file system with the same content hashes to the same
result. -/
theorem C7_hash_is_pure_digest (fs fs' : FileSys) (p q : String) (bytes : List Nat)
    (hp : fs p = some (Except.ok bytes)) (hq : fs' q = some (Except.ok bytes)) :
    get_file_hash fs p = Except.ok (String.mk (hexBytes (sha256Bytes bytes))) ∧
      get_file_hash fs p = get_file_hash fs' q := by
  unfold get_file_hash
  rw [hp, hq]
  exact ⟨rfl, rfl⟩

theorem C7_witness :
    get_file_hash (fun _ => some (Except.ok [97, 98, 99])) "a"
        = Except.ok (String.mk (hexBytes (sha256Bytes [97, 98, 99]))) ∧
      get_file_hash (fun _ => some (Except.ok [97, 98, 99])) "a"
        = get_file_hash
            (fun s => if s = "b" then some (Except.ok [97, 98, 99]) else none) "b" :=
  C7_hash_is_pure_digest _ _ "a" "b" [97, 98, 99] rfl (by simp)

/-- Lowercase hexadecimal digit test. -/
def isLowerHex (c : Char) : Bool :=
  ('0' ≤ c && c ≤ '9') || ('a' ≤ c && c ≤ 'f')

theorem isLowerHex_hexDigit (n : Nat) (h : n < 16) : isLowerHex (hexDigit n) = true := by
  interval_cases n <;> decide

theorem hexBytes_length (bs : List Nat) : (hexBytes bs).length = 2 * bs.length := by
  induction bs with
  | nil => rfl
  | cons b bs ih =>
    simp only [hexBytes, List.length_cons, ih]
    omega

theorem hexBytes_lower (bs : List Nat) : ∀ c ∈ hexBytes bs, isLowerHex c = true := by
  induction bs with
  | nil => intro c hc; simp [hexBytes] at hc
  | cons b bs ih =>
    intro c hc
    simp only [hexBytes, List.mem_cons] at hc
    rcases hc with h | h | h
    · rw [h]; exact isLowerHex_hexDigit _ (Nat.mod_lt _ (by omega))
    · rw [h]; exact isLowerHex_hexDigit _ (Nat.mod_lt _ (by omega))
    · exact ih c h

theorem sha256Bytes_length (msg : List Nat) : (sha256Bytes msg).length = 32 := by
  simp [sha256Bytes, wordBytes]

/-- C10: `get_file_hash` returns `Err("File does not exist")` whenever the
path does not name an existing file, and every `Ok` result is exactly 64
characters of lowercase hexadecimal. -/
theorem C10_missing_file_err_and_hex_shape (fs : FileSys) (p : String) :
    (fs p = none → get_file_hash fs p = Except.error "File does not exist") ∧
      ∀ r, get_file_hash fs p = Except.ok r →
        r.length = 64 ∧ ∀ c ∈ r.data, isLowerHex c = true := by
  constructor
  · intro h
    unfold get_file_hash
    rw [h]
  · intro r hr
    unfold get_file_hash at hr
    rcases hfs : fs p with _ | res
    · rw [hfs] at hr
      exact absurd hr (by simp)
    · rcases res with e | content
      · rw [hfs] at hr
        exact absurd hr (by simp)
      · rw [hfs] at hr
        have hres : sha256Hex content = r := by
          simpa [sha256Hex] using hr
        rw [← hres]
        constructor
        · show (sha256Hex content).data.length = 64
          simp only [sha256Hex, String.data]
          rw [hexBytes_length, sha256Bytes_length]
        · intro c hc
          simp only [sha256Hex, String.data] at hc
          exact hexBytes_lower _ c hc

theorem C10_witness :
    (get_file_hash (fun _ => none) "missing" = Except.error "File does not exist") ∧
      ((sha256Hex []).length = 64 ∧ ∀ c ∈ (sha256Hex []).data, isLowerHex c = true) :=
  ⟨(C10_missing_file_err_and_hex_shape (fun _ => none) "missing").1 rfl,
   (C10_missing_file_err_and_hex_shape (fun _ => some (Except.ok [])) "f").2
     (sha256Hex []) rfl⟩
